import Mathlib

/-!
Shallow embedding of the associative-storage engine of the repository:
the generic `CacheLibrary` container (src/base/cache_lib.hh), the BTB and
SSIT set-associative indexing policies (src/cpu/pred/btb_entry.hh,
src/cpu/o3/store_set.hh), the `BTBEntry` insertion protocol
(src/cpu/pred/btb_entry.hh) and the `SimpleBTB` construction check
(src/cpu/pred/simple_btb.cc).

Machine integers (`Addr` = uint64, `size_t`) are modelled as `Nat`; every
value that the C++ code masks is masked here with the same mask, so no
overflow can be observed.  Stateful code is modelled by explicit state
passing on plain data structures.
-/

namespace Gem5

/-- Modelled from the spec: `MaxAddr` (the all-ones 64-bit address used by the
entry types, defined in base/types.hh which is not part of the sources) is the
sentinel tag an invalidated entry carries. -/
def MaxAddr : Nat := 2 ^ 64 - 1

/-- Fuel-driven floor base-2 logarithm; `n` itself is always enough fuel. -/
def log2iAux : Nat → Nat → Nat
  | 0, _ => 0
  | fuel + 1, n => if 2 ≤ n then log2iAux fuel (n / 2) + 1 else 0

/-- Modelled from the spec: log2i from base/intmath.hh (not part of the
sources) returns the floor base-2 logarithm of its argument; the spec derives
shifts from `log2(entry granularity)` and `log2(set_count)`. -/
def log2i (n : Nat) : Nat := log2iAux n n

/-- Modelled from the spec: isPowerOf2 from base/intmath.hh (not part of the
sources) tests that its argument is a nonzero power of two. -/
def isPowerOf2 (n : Nat) : Bool := decide (0 < n) && (n &&& (n - 1) == 0)

/-- Modelled from the spec: a storage slot (`TaggedEntry`,
mem/cache/tags/tagged_entry.hh, not part of the sources) holds a tag, a
validity bit, policy-opaque replacement metadata of type `M` and a
consumer-defined payload of type `P`. -/
structure TaggedEntry (M P : Type) where
  tag : Nat
  valid : Bool
  replacementData : M
  payload : P
  deriving Repr, DecidableEq

namespace TaggedEntry

variable {M P : Type}

/-- Modelled from the spec: `matchTag` succeeds when the entry is valid and
its stored tag equals the probe tag (spec 4.3: scan candidates for
valid and tag matches). -/
def matchTag (t : Nat) (e : TaggedEntry M P) : Bool :=
  e.valid && e.tag == t

/-- Modelled from the spec: invalidating an entry clears the valid bit and
resets the tag to the `MaxAddr` sentinel. -/
def invalidateEntry (e : TaggedEntry M P) : TaggedEntry M P :=
  { e with valid := false, tag := MaxAddr }

/-- Modelled from the spec: `insert` on an entry stores the given tag and
marks the entry valid (spec 4.4 step 2). -/
def insertTag (t : Nat) (e : TaggedEntry M P) : TaggedEntry M P :=
  { e with valid := true, tag := t }

end TaggedEntry

/-- Modelled from the spec: the replacement-policy contract
(mem/cache/replacement_policies/base.hh, not part of the sources).  The
policy operates purely on per-entry metadata of type `M`: `instantiateEntry`
produces the metadata of a freshly allocated entry, `touch`/`reset`/
`invalidate` update one entry's metadata, and `getVictim` selects the
position of the victim among the metadata of the candidate set. -/
structure BaseReplacementPolicy (M : Type) where
  instantiateEntry : M
  touch : M → M
  reset : M → M
  invalidate : M → M
  getVictim : List M → Nat

variable {M P : Type}

/-- Effect of a replacement-policy `touch` on one entry: only the
replacement metadata changes. -/
def touchFun (p : BaseReplacementPolicy M) (e : TaggedEntry M P) :
    TaggedEntry M P :=
  { e with replacementData := p.touch e.replacementData }

/-- Effect of `CacheLibrary::invalidate` on one entry
(src/base/cache_lib.hh lines 225-229): `entry->invalidate()` then
`replPolicy->invalidate(entry->replacementData)`. -/
def invalFun (p : BaseReplacementPolicy M) (e : TaggedEntry M P) :
    TaggedEntry M P :=
  { e with valid := false, tag := MaxAddr,
           replacementData := p.invalidate e.replacementData }

/-- Effect of `CacheLibrary::insertEntry` on one entry
(src/base/cache_lib.hh lines 231-235): `entry->insert(tag)` then
`replPolicy->reset(entry->replacementData)`. -/
def insFun (p : BaseReplacementPolicy M) (t : Nat) (e : TaggedEntry M P) :
    TaggedEntry M P :=
  { e with valid := true, tag := t,
           replacementData := p.reset e.replacementData }

/-- Effect of the caller's payload write through the victim pointer. -/
def payloadFun (pl : P) (e : TaggedEntry M P) : TaggedEntry M P :=
  { e with payload := pl }

/-- Entry grid helper: the set at index `s`, or `[]` out of range
(mirroring `data[idx]` on the fixed grid). -/
def getSet (l : List (List (TaggedEntry M P))) (s : Nat) :
    List (TaggedEntry M P) :=
  l.getD s []

/-- Metadata list of one candidate set: the replacement policy sees the
candidates only through their per-entry metadata. -/
def candMeta (ws : List (TaggedEntry M P)) : List M :=
  ws.map (fun e => e.replacementData)

/-- In-place mutation of the way at index `w` of one set, as done through the
entry pointer in the C++ code; positions out of the grid are never accessed
by the source, and are a no-op here. -/
def modifyWay (f : TaggedEntry M P → TaggedEntry M P) :
    List (TaggedEntry M P) → Nat → List (TaggedEntry M P)
  | [], _ => []
  | e :: ws, 0 => f e :: ws
  | e :: ws, w + 1 => e :: modifyWay f ws w

/-- In-place mutation of the set at index `s` of the grid. -/
def modifySet (g : List (TaggedEntry M P) → List (TaggedEntry M P)) :
    List (List (TaggedEntry M P)) → Nat → List (List (TaggedEntry M P))
  | [], _ => []
  | ws :: rest, 0 => g ws :: rest
  | ws :: rest, s + 1 => ws :: modifySet g rest s

/-- State of `CacheLibrary` (src/base/cache_lib.hh): configuration computed
by the constructor / `initParams`, plus the `data` grid of sets times ways.
The replacement policy, a pointer member in the source, is passed explicitly
to each operation. -/
structure CacheLibrary (M P : Type) where
  numEntries : Nat
  associativity : Nat
  entrySize : Nat
  numSets : Nat
  setShift : Nat
  setMask : Nat
  tagShift : Nat
  tagMask : Nat
  data : List (List (TaggedEntry M P))
  deriving Repr, DecidableEq

namespace CacheLibrary

/-- Constructor of `CacheLibrary` together with `initParams`
(src/base/cache_lib.hh lines 100-132): `numSets = num_entries /
associativity`, grid of `numSets` sets of `associativity` freshly allocated
entries, `setShift = log2i(entry_size)`, `setMask = numSets - 1`,
`tagShift = setShift + log2i(numSets)`, `tagMask = (1 << num_tag_bits) - 1`.
Entries start invalid with metadata `instantiateEntry` and default payload
`p0`.  No configuration check of any kind is performed. -/
def init (num_entries associativity entry_size num_tag_bits : Nat)
    (p : BaseReplacementPolicy M) (p0 : P) : CacheLibrary M P :=
  let nsets := num_entries / associativity
  { numEntries := num_entries
    associativity := associativity
    entrySize := entry_size
    numSets := nsets
    setShift := log2i entry_size
    setMask := nsets - 1
    tagShift := log2i entry_size + log2i nsets
    tagMask := 2 ^ num_tag_bits - 1
    data := List.replicate nsets (List.replicate associativity
      { tag := MaxAddr, valid := false,
        replacementData := p.instantiateEntry, payload := p0 }) }

/-- getIndex (src/base/cache_lib.hh lines 175-178). -/
def getIndex (c : CacheLibrary M P) (addr : Nat) : Nat :=
  (addr >>> c.setShift) &&& c.setMask

/-- getTag (src/base/cache_lib.hh lines 180-183). -/
def getTag (c : CacheLibrary M P) (addr : Nat) : Nat :=
  (addr >>> c.tagShift) &&& c.tagMask

/-- Mutation of the entry at set `s`, way `w` through its pointer. -/
def modifyEntry (c : CacheLibrary M P) (s w : Nat)
    (f : TaggedEntry M P → TaggedEntry M P) : CacheLibrary M P :=
  { c with data := modifySet (fun ws => modifyWay f ws w) c.data s }

/-- Scan of one set for the first way whose entry matches the tag, as the
iterator loop of findEntry does; returns the way index of the match. -/
def findWay (t : Nat) : List (TaggedEntry M P) → Option Nat
  | [] => none
  | e :: ws =>
    if TaggedEntry.matchTag t e then some 0 else (findWay t ws).map (· + 1)

/-- Position variant of findEntry (src/base/cache_lib.hh lines 190-208):
the set index and way index of the first matching entry, if any. -/
def findEntryIdx (c : CacheLibrary M P) (addr : Nat) : Option (Nat × Nat) :=
  (findWay (c.getTag addr) (getSet c.data (c.getIndex addr))).map
    (fun w => (c.getIndex addr, w))

/-- findEntry (src/base/cache_lib.hh lines 190-208): scan the set at
`getIndex addr` for the first entry matching `getTag addr`; when
`updateRepl` is set, `touch` the matched entry's replacement metadata.
Returns the matched entry as the caller sees it through the returned
pointer, together with the cache state after the call. -/
def findEntry (p : BaseReplacementPolicy M) (c : CacheLibrary M P)
    (addr : Nat) (updateRepl : Bool) :
    Option (TaggedEntry M P) × CacheLibrary M P :=
  match c.findEntryIdx addr with
  | none => (none, c)
  | some (s, w) =>
    if updateRepl then
      let c1 := c.modifyEntry s w (touchFun p)
      ((getSet c1.data s).get? w, c1)
    else ((getSet c.data s).get? w, c)

/-- invalidate (src/base/cache_lib.hh lines 225-229) applied to the entry at
set `s`, way `w`: `entry->invalidate()` then
`replPolicy->invalidate(entry->replacementData)`. -/
def invalidateAt (p : BaseReplacementPolicy M) (c : CacheLibrary M P)
    (s w : Nat) : CacheLibrary M P :=
  c.modifyEntry s w (invalFun p)

/-- findVictim (src/base/cache_lib.hh lines 210-223): the candidates are the
set at `getIndex addr`; the policy selects the victim among them; the victim
is invalidated before being returned.  Returns the victim's position and the
new state. -/
def findVictim (p : BaseReplacementPolicy M) (c : CacheLibrary M P)
    (addr : Nat) : (Nat × Nat) × CacheLibrary M P :=
  let s := c.getIndex addr
  let cand := getSet c.data s
  let w := p.getVictim (candMeta cand)
  ((s, w), c.invalidateAt p s w)

/-- insertEntry (src/base/cache_lib.hh lines 231-235) applied to the entry
at set `s`, way `w`: `entry->insert(getTag(addr))` then
`replPolicy->reset(entry->replacementData)`. -/
def insertEntry (p : BaseReplacementPolicy M) (c : CacheLibrary M P)
    (addr : Nat) (s w : Nat) : CacheLibrary M P :=
  c.modifyEntry s w (insFun p (c.getTag addr))

/-- Payload write through the pointer returned by findVictim, as the caller
does after insertion (src/cpu/pred/simple_btb.cc lines 156-167,
`victim->update(...)`). -/
def writePayload (c : CacheLibrary M P) (s w : Nat) (pl : P) :
    CacheLibrary M P :=
  c.modifyEntry s w (payloadFun pl)

/-- clear (src/base/cache_lib.hh lines 144-151): invalidate every entry of
the grid; the C++ loop visits exactly every set index below `numSets` and
every way below the associativity, which is the whole fixed-size grid. -/
def clear (p : BaseReplacementPolicy M) (c : CacheLibrary M P) :
    CacheLibrary M P :=
  { c with data := c.data.map (fun ws => ws.map (invalFun p)) }

end CacheLibrary

/-- Public operations of the container, as exercised by its consumers:
lookup (findEntry, optionally touching), insert (findVictim followed by
insertEntry and the caller's payload write, as in SimpleBTB::update),
explicit invalidation of one entry, and clear. -/
inductive CacheOp (P : Type) where
  | lookup (addr : Nat) (updateRepl : Bool)
  | insert (addr : Nat) (payload : P)
  | invalidateEntry (s w : Nat)
  | clear
  deriving Repr, DecidableEq

namespace CacheLibrary

/-- Execute one public operation. -/
def runOp (p : BaseReplacementPolicy M) (c : CacheLibrary M P) :
    CacheOp P → CacheLibrary M P
  | CacheOp.lookup a u => (c.findEntry p a u).2
  | CacheOp.insert a pl =>
    let r := c.findVictim p a
    ((r.2.insertEntry p a r.1.1 r.1.2).writePayload r.1.1 r.1.2 pl)
  | CacheOp.invalidateEntry s w => c.invalidateAt p s w
  | CacheOp.clear => c.clear p

/-- Execute a sequence of public operations. -/
def runOps (p : BaseReplacementPolicy M) (c : CacheLibrary M P) :
    List (CacheOp P) → CacheLibrary M P
  | [] => c
  | op :: ops => runOps p (c.runOp p op) ops

end CacheLibrary

/-- Within one set, no entry other than the head is valid with the probe
tag. -/
def noValidTag (t : Nat) (ws : List (TaggedEntry M P)) : Bool :=
  ws.all (fun e => !(e.valid && e.tag == t))

/-- Within one set, no two valid entries share a tag. -/
def setNoDupTags : List (TaggedEntry M P) → Bool
  | [] => true
  | e :: ws => (!e.valid || noValidTag e.tag ws) && setNoDupTags ws

/-- Invariant (a) of the spec: in every set, at most one valid entry per
tag. -/
def CacheLibrary.noDupValidTags (c : CacheLibrary M P) : Bool :=
  c.data.all setNoDupTags

/-- A concrete replacement policy satisfying the spec contract on `Nat`
metadata: fresh and invalidated entries carry minimum priority 0, refilled
entries priority 2, touched entries priority 3, and the victim is the first
entry of minimum priority — so an invalid candidate is always preferred. -/
def minIdx : List Nat → Nat
  | [] => 0
  | [_] => 0
  | m :: ms =>
    let j := minIdx ms
    if m ≤ ms.getD j 0 then 0 else j + 1

/-- Concrete policy instance used for witnesses and counterexamples. -/
def lruLike : BaseReplacementPolicy Nat :=
  { instantiateEntry := 0
    touch := fun _ => 3
    reset := fun _ => 2
    invalidate := fun _ => 0
    getVictim := minIdx }

/-- Concrete fixture: a freshly constructed cache with 4 entries, 2 ways per
set, entry size 1 and 8 tag bits, metadata and payload both `Nat`. -/
def sampleCache : CacheLibrary Nat Nat :=
  CacheLibrary.init 4 2 1 8 lruLike 0

/-- Concrete fixture: `sampleCache` after one insertion of payload 10 at
key 0. -/
def sampleCache1 : CacheLibrary Nat Nat :=
  sampleCache.runOp lruLike (CacheOp.insert 0 10)

/-- Entry stored at set `s`, way `w`. -/
def CacheLibrary.entryAt (c : CacheLibrary M P) (s w : Nat) :
    Option (TaggedEntry M P) :=
  (getSet c.data s).get? w

/-- Guard on one operation in the current state: an `insert` may only be
issued while the key misses; the other operations are unrestricted. -/
def opGuard (c : CacheLibrary M P) : CacheOp P → Bool
  | CacheOp.insert a _ => (c.findEntryIdx a).isNone
  | _ => true

/-- Insert-after-miss discipline on an operation sequence: every `insert`
operation is issued only when the key currently misses in the cache. -/
def CacheLibrary.disciplinedB (p : BaseReplacementPolicy M)
    (c : CacheLibrary M P) : List (CacheOp P) → Bool
  | [] => true
  | op :: ops => opGuard c op && (c.runOp p op).disciplinedB p ops

/-- SimpleBTB constructor check (src/cpu/pred/simple_btb.cc lines 94-104):
fatal when the number of entries is not a power of two; no other
configuration validation is performed there. -/
def simpleBTBValidate (numEntries : Nat) : Except String Unit :=
  if isPowerOf2 numEntries then Except.ok ()
  else Except.error "BTB entries is not a power of 2!"

/-- Lookup key of the BTB indexing policy (src/cpu/pred/btb_entry.hh lines
61-70): an address and a thread id.  `ThreadID` is a signed integer type. -/
structure BTBKey where
  address : Nat
  tid : Int
  deriving Repr, DecidableEq

/-- Configuration of `BTBSetAssociative` (src/cpu/pred/btb_entry.hh lines
75-131).  The shift/mask fields come from the set-associative indexing-policy
base class, which is not part of the sources; they are modelled from the
spec: `numSets = num_entries / assoc`, `setMask = numSets - 1`,
`tagShift = setShift + log2(numSets)`, and tags are masked to a configured
tag width.  `log2NumThreads` is set by `setNumThreads` (lines 116-120). -/
structure BTBSetAssociative where
  numEntries : Nat
  assoc : Nat
  numSets : Nat
  setShift : Nat
  setMask : Nat
  tagShift : Nat
  tagMask : Nat
  log2NumThreads : Nat
  deriving Repr, DecidableEq

namespace BTBSetAssociative

/-- Constructor (src/cpu/pred/btb_entry.hh lines 81-85 plus the base-class
derivations described above). -/
def init (num_entries assoc set_shift num_tag_bits num_threads : Nat) :
    BTBSetAssociative :=
  let nsets := num_entries / assoc
  { numEntries := num_entries
    assoc := assoc
    numSets := nsets
    setShift := set_shift
    setMask := nsets - 1
    tagShift := set_shift + log2i nsets
    tagMask := 2 ^ num_tag_bits - 1
    log2NumThreads := log2i num_threads }

/-- extractSet (src/cpu/pred/btb_entry.hh lines 91-97): the address set bits
XOR the thread id shifted left by `tagShift - setShift - log2NumThreads`,
masked to the set-index width.  Thread ids are nonnegative in every use, so
the signed-to-unsigned conversion is by `Int.toNat`. -/
def extractSet (cfg : BTBSetAssociative) (key : BTBKey) : Nat :=
  ((key.address >>> cfg.setShift) ^^^
    (key.tid.toNat <<< (cfg.tagShift - cfg.setShift - cfg.log2NumThreads)))
    &&& cfg.setMask

/-- Modelled from the spec: tag extraction of the indexing-policy base class
(not part of the sources) takes only the address, shifts out the set and
offset bits and masks to the configured tag width. -/
def extractTag (cfg : BTBSetAssociative) (addr : Nat) : Nat :=
  (addr >>> cfg.tagShift) &&& cfg.tagMask

/-- Tag computed for a full key: the entry code applies `extractTag` to the
address field only (src/cpu/pred/btb_entry.hh line 181). -/
def tagOfKey (cfg : BTBSetAssociative) (key : BTBKey) : Nat :=
  cfg.extractTag key.address

/-- regenerateAddr (src/cpu/pred/btb_entry.hh lines 122-127): the key space
is not invertible and the implementation unconditionally panics; the panic
is modelled as an explicit error result. -/
def regenerateAddr (cfg : BTBSetAssociative) (key : BTBKey)
    (entry : Nat × Nat) : Except String Nat :=
  Except.error "Not implemented!"

end BTBSetAssociative

/-- Statement of the claimed indexing formula, following the spec text
verbatim for comparison with `BTBSetAssociative.extractSet`: the thread id
is shifted left by `log2(threads)`. -/
def extractSetSpecClaim (cfg : BTBSetAssociative) (key : BTBKey) : Nat :=
  ((key.address >>> cfg.setShift) ^^^
    (key.tid.toNat <<< cfg.log2NumThreads)) &&& cfg.setMask

/-- Lookup key of the SSIT indexing policy (src/cpu/o3/store_set.hh lines
47-56): just an address. -/
structure SSITKey where
  address : Nat
  deriving Repr, DecidableEq

/-- Configuration of `SSITSetAssociative` (src/cpu/o3/store_set.hh lines
61-102); shift/mask fields modelled from the spec as for the BTB policy. -/
structure SSITSetAssociative where
  numEntries : Nat
  assoc : Nat
  numSets : Nat
  setShift : Nat
  setMask : Nat
  tagShift : Nat
  tagMask : Nat
  deriving Repr, DecidableEq

namespace SSITSetAssociative

/-- Constructor (src/cpu/o3/store_set.hh lines 67-70 plus the base-class
derivations modelled from the spec). -/
def init (num_entries assoc set_shift num_tag_bits : Nat) :
    SSITSetAssociative :=
  let nsets := num_entries / assoc
  { numEntries := num_entries
    assoc := assoc
    numSets := nsets
    setShift := set_shift
    setMask := nsets - 1
    tagShift := set_shift + log2i nsets
    tagMask := 2 ^ num_tag_bits - 1 }

/-- extractSet (src/cpu/o3/store_set.hh lines 76-80). -/
def extractSet (cfg : SSITSetAssociative) (key : SSITKey) : Nat :=
  (key.address >>> cfg.setShift) &&& cfg.setMask

/-- regenerateAddr (src/cpu/o3/store_set.hh lines 96-101): unconditional
panic, modelled as an explicit error result. -/
def regenerateAddr (cfg : SSITSetAssociative) (key : SSITKey)
    (entry : Nat × Nat) : Except String Nat :=
  Except.error "regenerateAddr() not implemented!"

end SSITSetAssociative

/-- Tag stored in a `BTBEntry` (src/cpu/pred/btb_entry.hh):
`KeyType {address, tid}`; the invalid sentinel is `{MaxAddr, -1}`. -/
structure BTBTag where
  address : Nat
  tid : Int
  deriving Repr, DecidableEq

/-- BTBEntry (src/cpu/pred/btb_entry.hh lines 136-304): validity bit, tag
and the saturating confidence counter.  The predicted target and the static
instruction pointer are opaque simulation payload outside the
insert/invalidate protocol and are not modelled. -/
structure BTBEntry where
  valid : Bool
  tag : BTBTag
  confBits : Nat
  confInit : Nat
  confidence : Nat
  deriving Repr, DecidableEq

namespace BTBEntry

/-- setValid (src/cpu/pred/btb_entry.hh lines 258-264): asserts that the
entry is invalid beforehand; the assertion failure is modelled as `none`. -/
def setValid (e : BTBEntry) : Option BTBEntry :=
  if e.valid then none else some { e with valid := true }

/-- setTag (src/cpu/pred/btb_entry.hh line 256). -/
def setTag (t : BTBTag) (e : BTBEntry) : BTBEntry :=
  { e with tag := t }

/-- resetConfidence (src/cpu/pred/btb_entry.hh line 214): the counter is
re-created at its initial value. -/
def resetConfidence (e : BTBEntry) : BTBEntry :=
  { e with confidence := e.confInit }

/-- insert (src/cpu/pred/btb_entry.hh lines 177-183): `setValid()`, then
`setTag({extractTag(key.address), key.tid})`, then `resetConfidence()`. -/
def insert (extractTag : Nat → Nat) (key : BTBKey) (e : BTBEntry) :
    Option BTBEntry :=
  e.setValid.map (fun e1 =>
    (setTag ⟨extractTag key.address, key.tid⟩ e1).resetConfidence)

/-- invalidate (src/cpu/pred/btb_entry.hh lines 232-237). -/
def invalidate (e : BTBEntry) : BTBEntry :=
  { e with valid := false, tag := ⟨MaxAddr, -1⟩ }

end BTBEntry

/-! ### Grid lemmas -/

theorem getSet_nil (s : Nat) :
    getSet ([] : List (List (TaggedEntry M P))) s = [] := by
  cases s <;> rfl

theorem modifyWay_nil (f : TaggedEntry M P → TaggedEntry M P) (w : Nat) :
    modifyWay f [] w = [] := rfl

theorem getSet_modifySet_self
    {g : List (TaggedEntry M P) → List (TaggedEntry M P)}
    (hg : g [] = []) (l : List (List (TaggedEntry M P))) (s : Nat) :
    getSet (modifySet g l s) s = g (getSet l s) := by
  induction l generalizing s with
  | nil => cases s <;> simp [modifySet, getSet_nil, hg]
  | cons ws rest ih =>
    cases s with
    | zero => rfl
    | succ s => simpa [modifySet, getSet, List.getD] using ih s

theorem getSet_modifySet_other
    {g : List (TaggedEntry M P) → List (TaggedEntry M P)}
    (l : List (List (TaggedEntry M P))) {s t : Nat} (h : t ≠ s) :
    getSet (modifySet g l s) t = getSet l t := by
  induction l generalizing s t with
  | nil => cases s <;> rfl
  | cons ws rest ih =>
    cases s with
    | zero =>
      cases t with
      | zero => exact absurd rfl h
      | succ t => rfl
    | succ s =>
      cases t with
      | zero => rfl
      | succ t =>
        simpa [modifySet, getSet, List.getD] using ih (fun he => h (by omega))

theorem modifyWay_get_self (f : TaggedEntry M P → TaggedEntry M P)
    (ws : List (TaggedEntry M P)) (w : Nat) :
    (modifyWay f ws w).get? w = (ws.get? w).map f := by
  induction ws generalizing w with
  | nil => cases w <;> rfl
  | cons e ws ih =>
    cases w with
    | zero => rfl
    | succ w => simpa [modifyWay] using ih w

theorem modifyWay_get_other (f : TaggedEntry M P → TaggedEntry M P)
    (ws : List (TaggedEntry M P)) {w v : Nat} (h : v ≠ w) :
    (modifyWay f ws w).get? v = ws.get? v := by
  induction ws generalizing w v with
  | nil => cases w <;> rfl
  | cons e ws ih =>
    cases w with
    | zero =>
      cases v with
      | zero => exact absurd rfl h
      | succ v => rfl
    | succ w =>
      cases v with
      | zero => rfl
      | succ v => simpa [modifyWay] using ih (fun he => h (by omega))

theorem modifySet_comp
    {g1 g2 : List (TaggedEntry M P) → List (TaggedEntry M P)}
    (l : List (List (TaggedEntry M P))) (s : Nat) :
    modifySet g2 (modifySet g1 l s) s = modifySet (fun ws => g2 (g1 ws)) l s := by
  induction l generalizing s with
  | nil => cases s <;> rfl
  | cons ws rest ih =>
    cases s with
    | zero => rfl
    | succ s => simpa [modifySet] using ih s

theorem all_modifySet {q : List (TaggedEntry M P) → Bool}
    {g : List (TaggedEntry M P) → List (TaggedEntry M P)}
    (l : List (List (TaggedEntry M P))) (s : Nat)
    (hstep : q (getSet l s) = true → q (g (getSet l s)) = true)
    (hl : l.all q = true) : (modifySet g l s).all q = true := by
  induction l generalizing s with
  | nil => cases s <;> simp [modifySet]
  | cons ws rest ih =>
    simp only [List.all_cons, Bool.and_eq_true] at hl
    cases s with
    | zero =>
      have hq : q (g ws) = true := hstep (by simpa [getSet, List.getD] using hl.1)
      simp [modifySet, hq, hl.2]
    | succ s =>
      have := ih s (by simpa [getSet, List.getD] using hstep) hl.2
      simp [modifySet, hl.1, this]

theorem entryAt_modifyEntry_self (c : CacheLibrary M P) (s w : Nat)
    (f : TaggedEntry M P → TaggedEntry M P) :
    (c.modifyEntry s w f).entryAt s w = (c.entryAt s w).map f := by
  unfold CacheLibrary.entryAt CacheLibrary.modifyEntry
  rw [getSet_modifySet_self (by rfl)]
  exact modifyWay_get_self f _ w

theorem entryAt_modifyEntry_other (c : CacheLibrary M P) {s w t v : Nat}
    (f : TaggedEntry M P → TaggedEntry M P) (h : ¬(t = s ∧ v = w)) :
    (c.modifyEntry s w f).entryAt t v = c.entryAt t v := by
  unfold CacheLibrary.entryAt CacheLibrary.modifyEntry
  by_cases hs : t = s
  · subst hs
    have hv : v ≠ w := fun he => h ⟨rfl, he⟩
    rw [getSet_modifySet_self (by rfl)]
    exact modifyWay_get_other f _ hv
  · rw [getSet_modifySet_other _ hs]

/-! ### Tag-invariant lemmas -/

theorem noValidTag_nil (t : Nat) :
    noValidTag t ([] : List (TaggedEntry M P)) = true := rfl

theorem noValidTag_cons (t : Nat) (e : TaggedEntry M P)
    (ws : List (TaggedEntry M P)) :
    noValidTag t (e :: ws) = ((!(e.valid && e.tag == t)) && noValidTag t ws) :=
  rfl

theorem setNoDupTags_cons (e : TaggedEntry M P)
    (ws : List (TaggedEntry M P)) :
    setNoDupTags (e :: ws) =
      ((!e.valid || noValidTag e.tag ws) && setNoDupTags ws) := rfl

theorem noValidTag_modifyWay_pres {f : TaggedEntry M P → TaggedEntry M P}
    (hf : ∀ e, (f e).valid = e.valid ∧ (f e).tag = e.tag)
    (t : Nat) (ws : List (TaggedEntry M P)) (w : Nat) :
    noValidTag t (modifyWay f ws w) = noValidTag t ws := by
  induction ws generalizing w with
  | nil => cases w <;> rfl
  | cons e ws ih =>
    cases w with
    | zero =>
      simp only [modifyWay, noValidTag_cons, (hf e).1, (hf e).2]
    | succ w =>
      simp only [modifyWay, noValidTag_cons, ih w]

theorem setNoDupTags_modifyWay_pres {f : TaggedEntry M P → TaggedEntry M P}
    (hf : ∀ e, (f e).valid = e.valid ∧ (f e).tag = e.tag)
    (ws : List (TaggedEntry M P)) (w : Nat) :
    setNoDupTags (modifyWay f ws w) = setNoDupTags ws := by
  induction ws generalizing w with
  | nil => cases w <;> rfl
  | cons e ws ih =>
    cases w with
    | zero =>
      simp only [modifyWay, setNoDupTags_cons, (hf e).1, (hf e).2]
    | succ w =>
      simp only [modifyWay, setNoDupTags_cons, ih w,
        noValidTag_modifyWay_pres hf]

theorem noValidTag_modifyWay_inv {f : TaggedEntry M P → TaggedEntry M P}
    (hf : ∀ e, (f e).valid = false)
    {t : Nat} {ws : List (TaggedEntry M P)} (w : Nat)
    (h : noValidTag t ws = true) :
    noValidTag t (modifyWay f ws w) = true := by
  induction ws generalizing w with
  | nil => cases w <;> rfl
  | cons e ws ih =>
    rw [noValidTag_cons, Bool.and_eq_true] at h
    cases w with
    | zero =>
      simp only [modifyWay, noValidTag_cons, hf e, Bool.false_and,
        Bool.not_false, Bool.true_and]
      exact h.2
    | succ w =>
      simp only [modifyWay, noValidTag_cons, Bool.and_eq_true]
      exact ⟨h.1, ih w h.2⟩

theorem setNoDupTags_modifyWay_inv {f : TaggedEntry M P → TaggedEntry M P}
    (hf : ∀ e, (f e).valid = false)
    {ws : List (TaggedEntry M P)} (w : Nat)
    (h : setNoDupTags ws = true) :
    setNoDupTags (modifyWay f ws w) = true := by
  induction ws generalizing w with
  | nil => cases w <;> rfl
  | cons e ws ih =>
    rw [setNoDupTags_cons, Bool.and_eq_true] at h
    cases w with
    | zero =>
      simp only [modifyWay, setNoDupTags_cons, hf e, Bool.not_false,
        Bool.true_or, Bool.true_and]
      exact h.2
    | succ w =>
      simp only [modifyWay, setNoDupTags_cons, Bool.and_eq_true]
      refine ⟨?_, ih w h.2⟩
      have h1 := h.1
      rw [Bool.or_eq_true] at h1
      rw [Bool.or_eq_true]
      rcases h1 with h1 | h1
      · exact Or.inl h1
      · exact Or.inr (noValidTag_modifyWay_inv hf w h1)

theorem noValidTag_modifyWay_ins {f : TaggedEntry M P → TaggedEntry M P}
    {t : Nat} (hf : ∀ e, (f e).tag = t)
    {u : Nat} (hne : u ≠ t) {ws : List (TaggedEntry M P)} (w : Nat)
    (h : noValidTag u ws = true) :
    noValidTag u (modifyWay f ws w) = true := by
  induction ws generalizing w with
  | nil => cases w <;> rfl
  | cons e ws ih =>
    rw [noValidTag_cons, Bool.and_eq_true] at h
    cases w with
    | zero =>
      have hbe : ((f e).tag == u) = false := by
        rw [hf e]
        exact beq_eq_false_iff_ne.mpr (Ne.symm hne)
      simp only [modifyWay, noValidTag_cons, hbe, Bool.and_false,
        Bool.not_false, Bool.true_and]
      exact h.2
    | succ w =>
      simp only [modifyWay, noValidTag_cons, Bool.and_eq_true]
      exact ⟨h.1, ih w h.2⟩

theorem setNoDupTags_modifyWay_ins {f : TaggedEntry M P → TaggedEntry M P}
    {t : Nat} (hf : ∀ e, (f e).valid = true ∧ (f e).tag = t)
    {ws : List (TaggedEntry M P)} (w : Nat)
    (hnd : setNoDupTags ws = true) (hmiss : noValidTag t ws = true) :
    setNoDupTags (modifyWay f ws w) = true := by
  induction ws generalizing w with
  | nil => cases w <;> rfl
  | cons e ws ih =>
    rw [setNoDupTags_cons, Bool.and_eq_true] at hnd
    rw [noValidTag_cons, Bool.and_eq_true] at hmiss
    cases w with
    | zero =>
      simp only [modifyWay, setNoDupTags_cons, (hf e).1, (hf e).2,
        Bool.not_true, Bool.false_or, Bool.and_eq_true]
      exact ⟨hmiss.2, hnd.2⟩
    | succ w =>
      simp only [modifyWay, setNoDupTags_cons, Bool.and_eq_true]
      refine ⟨?_, ih w hnd.2 hmiss.2⟩
      rw [Bool.or_eq_true]
      cases hv : e.valid with
      | false => exact Or.inl (by simp)
      | true =>
        have h1 := hnd.1
        rw [Bool.or_eq_true, hv] at h1
        rcases h1 with h1 | h1
        · simp at h1
        · have hnet : e.tag ≠ t := by
            intro hcontra
            have := hmiss.1
            rw [hv, hcontra] at this
            simp at this
          exact Or.inr
            (noValidTag_modifyWay_ins (fun e => (hf e).2) hnet w h1)

theorem findWay_none_iff (t : Nat) (ws : List (TaggedEntry M P)) :
    CacheLibrary.findWay t ws = none ↔ noValidTag t ws = true := by
  induction ws with
  | nil => simp [CacheLibrary.findWay, noValidTag_nil]
  | cons e ws ih =>
    cases hm : TaggedEntry.matchTag t e with
    | true =>
      have hhead : (!(e.valid && e.tag == t)) = false := by
        rw [show (e.valid && e.tag == t) = TaggedEntry.matchTag t e from rfl,
          hm]
        rfl
      rw [noValidTag_cons, hhead]
      simp [CacheLibrary.findWay, hm]
    | false =>
      have hhead : (!(e.valid && e.tag == t)) = true := by
        rw [show (e.valid && e.tag == t) = TaggedEntry.matchTag t e from rfl,
          hm]
        rfl
      rw [noValidTag_cons, hhead, Bool.true_and, ← ih]
      simp only [CacheLibrary.findWay, hm, Bool.false_eq_true, if_false]
      cases CacheLibrary.findWay t ws <;> simp

theorem findWay_some_spec {t : Nat} {ws : List (TaggedEntry M P)} {w : Nat}
    (h : CacheLibrary.findWay t ws = some w) :
    ∃ e, ws.get? w = some e ∧ TaggedEntry.matchTag t e = true := by
  induction ws generalizing w with
  | nil => simp [CacheLibrary.findWay] at h
  | cons e ws ih =>
    cases hm : TaggedEntry.matchTag t e with
    | true =>
      rw [CacheLibrary.findWay, if_pos hm] at h
      have hw : w = 0 := by injection h with h0; omega
      subst hw
      exact ⟨e, rfl, hm⟩
    | false =>
      rw [CacheLibrary.findWay, if_neg (by simp [hm])] at h
      obtain ⟨w0, hw0, hww⟩ := Option.map_eq_some'.mp h
      obtain ⟨e0, he0, hme0⟩ := ih hw0
      refine ⟨e0, ?_, hme0⟩
      rw [← hww]
      exact he0

theorem findWay_eq_of {t : Nat} {ws : List (TaggedEntry M P)} {w : Nat}
    {e : TaggedEntry M P} (hw : ws.get? w = some e)
    (hm : TaggedEntry.matchTag t e = true)
    (hprev : ∀ j, j < w → ∀ x, ws.get? j = some x →
      TaggedEntry.matchTag t x = false) :
    CacheLibrary.findWay t ws = some w := by
  induction ws generalizing w with
  | nil => simp at hw
  | cons a ws ih =>
    cases w with
    | zero =>
      simp at hw
      simp [CacheLibrary.findWay, hw ▸ hm]
    | succ w =>
      have ha : TaggedEntry.matchTag t a = false :=
        hprev 0 (Nat.succ_pos w) a rfl
      have hrec := ih (by simpa using hw)
        (fun j hj x hx => hprev (j + 1) (by omega) x (by simpa using hx))
      simp [CacheLibrary.findWay, ha, hrec]

theorem setNoDupTags_of_all_invalid {ws : List (TaggedEntry M P)}
    (h : ws.all (fun e => !e.valid) = true) : setNoDupTags ws = true := by
  induction ws with
  | nil => rfl
  | cons e ws ih =>
    simp only [List.all_cons, Bool.and_eq_true] at h
    simp [setNoDupTags, h.1, ih h.2]

/-! ### Invariant preservation across the public operations -/

theorem noDupValidTags_def (c : CacheLibrary M P) :
    c.noDupValidTags = c.data.all setNoDupTags := rfl

theorem touchFun_pres (p : BaseReplacementPolicy M) :
    ∀ e : TaggedEntry M P,
      (touchFun p e).valid = e.valid ∧ (touchFun p e).tag = e.tag :=
  fun _ => ⟨rfl, rfl⟩

theorem payloadFun_pres (pl : P) :
    ∀ e : TaggedEntry M P,
      (payloadFun pl e).valid = e.valid ∧ (payloadFun pl e).tag = e.tag :=
  fun _ => ⟨rfl, rfl⟩

theorem invalFun_invalid (p : BaseReplacementPolicy M) :
    ∀ e : TaggedEntry M P, (invalFun p e).valid = false :=
  fun _ => rfl

theorem insFun_fields (p : BaseReplacementPolicy M) (t : Nat) :
    ∀ e : TaggedEntry M P,
      (insFun p t e).valid = true ∧ (insFun p t e).tag = t :=
  fun _ => ⟨rfl, rfl⟩

theorem getTag_modifyEntry (c : CacheLibrary M P) (s w : Nat)
    (f : TaggedEntry M P → TaggedEntry M P) (a : Nat) :
    (c.modifyEntry s w f).getTag a = c.getTag a := rfl

theorem noDup_modifyEntry_pres {f : TaggedEntry M P → TaggedEntry M P}
    (hf : ∀ e, (f e).valid = e.valid ∧ (f e).tag = e.tag)
    {c : CacheLibrary M P} (s w : Nat) (h : c.noDupValidTags = true) :
    (c.modifyEntry s w f).noDupValidTags = true := by
  rw [noDupValidTags_def] at h ⊢
  exact all_modifySet c.data s
    (fun hws => by rw [setNoDupTags_modifyWay_pres hf]; exact hws) h

theorem noDup_invalidateAt (p : BaseReplacementPolicy M)
    {c : CacheLibrary M P} (s w : Nat) (h : c.noDupValidTags = true) :
    (c.invalidateAt p s w).noDupValidTags = true := by
  rw [CacheLibrary.invalidateAt, noDupValidTags_def] at *
  exact all_modifySet c.data s
    (fun hws => setNoDupTags_modifyWay_inv (invalFun_invalid p) w hws) h

theorem findEntryIdx_none_noValidTag {c : CacheLibrary M P} {a : Nat}
    (h : c.findEntryIdx a = none) :
    noValidTag (c.getTag a) (getSet c.data (c.getIndex a)) = true := by
  rw [CacheLibrary.findEntryIdx, Option.map_eq_none'] at h
  exact (findWay_none_iff _ _).mp h

theorem noDup_runOp_lookup (p : BaseReplacementPolicy M)
    (c : CacheLibrary M P) (a : Nat) (u : Bool)
    (h : c.noDupValidTags = true) :
    (c.runOp p (CacheOp.lookup a u)).noDupValidTags = true := by
  rw [CacheLibrary.runOp, CacheLibrary.findEntry]
  rcases hidx : c.findEntryIdx a with _ | ⟨s, w⟩
  · exact h
  · cases u with
    | false => exact h
    | true => exact noDup_modifyEntry_pres (touchFun_pres p) s w h

theorem noDup_insert_chain (p : BaseReplacementPolicy M)
    (c : CacheLibrary M P) (s w t : Nat) (pl : P)
    (hmiss : noValidTag t (getSet c.data s) = true)
    (h : c.noDupValidTags = true) :
    (((c.modifyEntry s w (invalFun p)).modifyEntry s w
        (insFun p t)).modifyEntry s w (payloadFun pl)).noDupValidTags
      = true := by
  simp only [CacheLibrary.modifyEntry, noDupValidTags_def] at *
  simp only [modifySet_comp]
  refine all_modifySet c.data s (fun hws => ?_) h
  rw [setNoDupTags_modifyWay_pres (payloadFun_pres pl)]
  exact setNoDupTags_modifyWay_ins (insFun_fields p t) w
    (setNoDupTags_modifyWay_inv (invalFun_invalid p) w hws)
    (noValidTag_modifyWay_inv (invalFun_invalid p) w hmiss)

theorem noDup_runOp_insert (p : BaseReplacementPolicy M)
    (c : CacheLibrary M P) (a : Nat) (pl : P)
    (hmiss : c.findEntryIdx a = none) (h : c.noDupValidTags = true) :
    (c.runOp p (CacheOp.insert a pl)).noDupValidTags = true := by
  have hnv := findEntryIdx_none_noValidTag hmiss
  rw [CacheLibrary.runOp]
  simp only [CacheLibrary.findVictim, CacheLibrary.invalidateAt,
    CacheLibrary.insertEntry, CacheLibrary.writePayload,
    getTag_modifyEntry]
  exact noDup_insert_chain p c _ _ _ pl hnv h

theorem all_invalid_map_invalFun (p : BaseReplacementPolicy M)
    (ws : List (TaggedEntry M P)) :
    (ws.map (invalFun p)).all (fun e => !e.valid) = true := by
  rw [List.all_map]
  exact List.all_eq_true.mpr (fun e _ => rfl)

theorem noDup_clear (p : BaseReplacementPolicy M) (c : CacheLibrary M P) :
    (c.clear p).noDupValidTags = true := by
  rw [noDupValidTags_def, CacheLibrary.clear]
  simp only [List.all_map]
  exact List.all_eq_true.mpr (fun ws _ =>
    setNoDupTags_of_all_invalid (all_invalid_map_invalFun p ws))

theorem noDup_runOp (p : BaseReplacementPolicy M) (c : CacheLibrary M P)
    (op : CacheOp P) (hguard : opGuard c op = true)
    (h : c.noDupValidTags = true) :
    (c.runOp p op).noDupValidTags = true := by
  cases op with
  | lookup a u => exact noDup_runOp_lookup p c a u h
  | insert a pl =>
    exact noDup_runOp_insert p c a pl (Option.isNone_iff_eq_none.mp hguard) h
  | invalidateEntry s w => exact noDup_invalidateAt p s w h
  | clear => exact noDup_clear p c

theorem noDup_runOps (p : BaseReplacementPolicy M) (c : CacheLibrary M P)
    (ops : List (CacheOp P)) (hd : c.disciplinedB p ops = true)
    (h : c.noDupValidTags = true) :
    (c.runOps p ops).noDupValidTags = true := by
  induction ops generalizing c with
  | nil => exact h
  | cons op ops ih =>
    rw [CacheLibrary.disciplinedB, Bool.and_eq_true] at hd
    exact ih (c.runOp p op) hd.2 (noDup_runOp p c op hd.1 h)

theorem noDup_init (ne assoc es tb : Nat) (p : BaseReplacementPolicy M)
    (p0 : P) :
    (CacheLibrary.init ne assoc es tb p p0).noDupValidTags = true := by
  rw [noDupValidTags_def, CacheLibrary.init]
  refine List.all_eq_true.mpr (fun ws hws => ?_)
  rw [List.mem_replicate] at hws
  rw [hws.2]
  refine setNoDupTags_of_all_invalid (List.all_eq_true.mpr (fun e he => ?_))
  rw [List.mem_replicate] at he
  rw [he.2]
  rfl

/-! ### Helpers for the clear and round-trip theorems -/

theorem map_fuse {α β : Type} {f g : α → β} (h : ∀ a, f a = g a) :
    ∀ l : List α, l.map f = l.map g
  | [] => rfl
  | a :: l => by rw [List.map_cons, List.map_cons, h a, map_fuse h l]

theorem invalFun_idem (p : BaseReplacementPolicy M)
    (hp : ∀ m, p.invalidate (p.invalidate m) = p.invalidate m)
    (e : TaggedEntry M P) : invalFun p (invalFun p e) = invalFun p e := by
  simp only [invalFun]
  rw [hp e.replacementData]

theorem getSet_map {g : List (TaggedEntry M P) → List (TaggedEntry M P)}
    (hg : g [] = []) (l : List (List (TaggedEntry M P))) (s : Nat) :
    getSet (l.map g) s = g (getSet l s) := by
  induction l generalizing s with
  | nil => cases s <;> simp [getSet_nil, hg]
  | cons ws rest ih =>
    cases s with
    | zero => rfl
    | succ s => simpa [getSet, List.getD] using ih s

theorem noValidTag_of_all_invalid (t : Nat) {ws : List (TaggedEntry M P)}
    (h : ws.all (fun e => !e.valid) = true) : noValidTag t ws = true := by
  induction ws with
  | nil => rfl
  | cons e ws ih =>
    rw [List.all_cons, Bool.and_eq_true] at h
    rw [noValidTag_cons, Bool.and_eq_true]
    refine ⟨?_, ih h.2⟩
    have hv : e.valid = false := by
      have := h.1
      cases hv : e.valid
      · rfl
      · rw [hv] at this; simp at this
    rw [hv]
    rfl

theorem matchTag_false_of_noValidTag {t : Nat} {ws : List (TaggedEntry M P)}
    (h : noValidTag t ws = true) :
    ∀ j e, ws.get? j = some e → TaggedEntry.matchTag t e = false := by
  induction ws with
  | nil => intro j e hj; cases j <;> simp at hj
  | cons a ws ih =>
    rw [noValidTag_cons, Bool.and_eq_true] at h
    intro j e hj
    cases j with
    | zero =>
      have ha : a = e := by injection hj
      rw [← ha]
      have := h.1
      cases hm : TaggedEntry.matchTag t a
      · rfl
      · rw [show (a.valid && a.tag == t) = TaggedEntry.matchTag t a from rfl,
          hm] at this
        simp at this
    | succ j => exact ih h.2 j e hj

theorem noValidTag_false_of_match {t : Nat} {ws : List (TaggedEntry M P)}
    {w : Nat} {e : TaggedEntry M P} (hw : ws.get? w = some e)
    (hv : e.valid = true) (ht : e.tag = t) : noValidTag t ws = false := by
  induction ws generalizing w with
  | nil => cases w <;> simp at hw
  | cons a ws ih =>
    cases w with
    | zero =>
      have ha : a = e := by injection hw
      rw [noValidTag_cons, ha, hv, ht]
      simp
    | succ w =>
      rw [noValidTag_cons, ih hw]
      simp

theorem getSet_modifyEntry_self (c : CacheLibrary M P) (s w : Nat)
    (f : TaggedEntry M P → TaggedEntry M P) :
    getSet (c.modifyEntry s w f).data s = modifyWay f (getSet c.data s) w := by
  show getSet (modifySet (fun ws => modifyWay f ws w) c.data s) s = _
  exact getSet_modifySet_self rfl c.data s

theorem findEntry_fst_of_findWay {p : BaseReplacementPolicy M}
    {c : CacheLibrary M P} {a j : Nat} {e : TaggedEntry M P}
    (hfw : CacheLibrary.findWay (c.getTag a)
      (getSet c.data (c.getIndex a)) = some j)
    (hj : (getSet c.data (c.getIndex a)).get? j = some e) :
    (c.findEntry p a false).1 = some e := by
  have hidx : c.findEntryIdx a = some (c.getIndex a, j) := by
    rw [CacheLibrary.findEntryIdx, hfw]
    rfl
  rw [CacheLibrary.findEntry, hidx]
  exact hj

/-! ### Claim theorems -/

/-- C1 (counterexample): the claim as stated is false.  Starting from the
freshly constructed cache (4 entries, 2 ways), one insertion of key 0
followed by a second findVictim/insertEntry of the same key 0 leaves set 0
with two valid entries carrying the same tag: the replacement policy prefers
the still-invalid way 1 as the victim, so the tag of key 0 is stored a second
time next to the copy already in way 0. -/
theorem duplicate_valid_tags_reachable :
    (CacheLibrary.runOps lruLike sampleCache
      [CacheOp.insert 0 10, CacheOp.insert 0 20]).noDupValidTags = false := by
  decide

/-- C1 (amended): for every operation sequence from the freshly constructed
cache in which each findVictim/insertEntry pair is issued only while its key
misses, no set ever contains two valid entries with the same tag. -/
theorem noDupValidTags_of_disciplined (ne assoc es tb : Nat)
    (p : BaseReplacementPolicy M) (p0 : P) (ops : List (CacheOp P))
    (hd : (CacheLibrary.init ne assoc es tb p p0).disciplinedB p ops = true) :
    (CacheLibrary.runOps p (CacheLibrary.init ne assoc es tb p p0)
      ops).noDupValidTags = true :=
  noDup_runOps p _ ops hd (noDup_init ne assoc es tb p p0)

/-- Witness for the amended C1 theorem at a concrete disciplined sequence. -/
theorem noDupValidTags_of_disciplined_witness :
    (CacheLibrary.init 4 2 1 8 lruLike (0 : Nat)).disciplinedB lruLike
        [CacheOp.insert 0 10, CacheOp.lookup 0 true, CacheOp.clear,
          CacheOp.insert 2 5] = true ∧
    (CacheLibrary.runOps lruLike (CacheLibrary.init 4 2 1 8 lruLike (0 : Nat))
        [CacheOp.insert 0 10, CacheOp.lookup 0 true, CacheOp.clear,
          CacheOp.insert 2 5]).noDupValidTags = true :=
  ⟨by decide, noDupValidTags_of_disciplined 4 2 1 8 lruLike 0 _ (by decide)⟩

/-- C3 (counterexample): constructing with capacity 6 and associativity 4
does not fail any configuration validation; it yields a cache with one set
of four ways on which an insertion followed by a lookup succeeds. -/
theorem init_capacity6_assoc4_usable :
    (CacheLibrary.init 6 4 1 4 lruLike (0 : Nat)).numSets = 1 ∧
    ((CacheLibrary.runOp lruLike (CacheLibrary.init 6 4 1 4 lruLike (0 : Nat))
        (CacheOp.insert 5 7)).findEntryIdx 5).isSome = true :=
  ⟨rfl, by decide⟩

/-- C3 (amended): `CacheLibrary` construction performs no validation at all:
`numSets` is the capacity divided by the associativity, rounded down, for
every configuration.  Separately, `SimpleBTB` construction fails fast
exactly when its number of entries is not a power of two. -/
theorem init_performs_no_validation (ne assoc es tb : Nat)
    (p : BaseReplacementPolicy M) (p0 : P) (n : Nat) :
    (CacheLibrary.init ne assoc es tb p p0).numSets = ne / assoc ∧
    (simpleBTBValidate n = Except.ok () ↔ isPowerOf2 n = true) := by
  refine ⟨rfl, ?_⟩
  rw [simpleBTBValidate]
  cases hp : isPowerOf2 n <;> simp [hp]

/-- C5: in the constructed cache, the set index of an address is the address
shifted right by the floor log2 of the entry size, masked to
`set_count - 1`, and the tag is the address shifted right by the sum of that
shift and the floor log2 of the set count, masked to the configured tag
width, with `set_count = capacity / associativity`. -/
theorem getIndex_getTag_shift_mask (ne assoc es tb : Nat)
    (p : BaseReplacementPolicy M) (p0 : P) (addr : Nat) :
    (CacheLibrary.init ne assoc es tb p p0).getIndex addr
        = (addr >>> log2i es) &&& (ne / assoc - 1) ∧
    (CacheLibrary.init ne assoc es tb p p0).getTag addr
        = (addr >>> (log2i es + log2i (ne / assoc))) &&& (2 ^ tb - 1) :=
  ⟨rfl, rfl⟩

/-- C6 (counterexample): the claimed shift amount is wrong.  With 16
entries, 2 ways, set shift 1 and 2 threads, the code shifts the thread id by
`tagShift - setShift - log2(threads) = 2`, not by `log2(threads) = 1`: on
the key (address 0, thread 1) the code computes set 4 while the claimed
formula computes set 2. -/
theorem extractSet_not_spec_shift :
    BTBSetAssociative.extractSet (BTBSetAssociative.init 16 2 1 8 2) ⟨0, 1⟩ ≠
      extractSetSpecClaim (BTBSetAssociative.init 16 2 1 8 2) ⟨0, 1⟩ := by
  decide

/-- C6 (amended): in the constructed BTB indexing policy the set index is
the address set bits XOR the thread id shifted left by
`log2(set_count) - log2(threads)`, masked to the set-index width, and the
tag computed for a key ignores the thread id entirely. -/
theorem extractSet_formula_tag_ignores_tid (ne assoc ss tb nt : Nat)
    (key : BTBKey) (a : Nat) (t1 t2 : Int) :
    BTBSetAssociative.extractSet (BTBSetAssociative.init ne assoc ss tb nt)
        key
      = ((key.address >>> ss) ^^^
          (key.tid.toNat <<< (log2i (ne / assoc) - log2i nt)))
          &&& (ne / assoc - 1) ∧
    BTBSetAssociative.tagOfKey (BTBSetAssociative.init ne assoc ss tb nt)
        ⟨a, t1⟩
      = BTBSetAssociative.tagOfKey (BTBSetAssociative.init ne assoc ss tb nt)
        ⟨a, t2⟩ := by
  refine ⟨?_, rfl⟩
  have h : ss + log2i (ne / assoc) - ss - log2i nt
      = log2i (ne / assoc) - log2i nt := by omega
  simp only [BTBSetAssociative.extractSet, BTBSetAssociative.init]
  rw [h]

/-- C9: address reconstruction is an explicit unsupported outcome for both
set-associative policies whose key spaces are not invertible: the BTB and
SSIT `regenerateAddr` implementations unconditionally report the error and
never return an address. -/
theorem regenerateAddr_always_unsupported (cfgB : BTBSetAssociative)
    (keyB : BTBKey) (eB : Nat × Nat) (cfgS : SSITSetAssociative)
    (keyS : SSITKey) (eS : Nat × Nat) :
    cfgB.regenerateAddr keyB eB = Except.error "Not implemented!" ∧
    cfgS.regenerateAddr keyS eS
      = Except.error "regenerateAddr() not implemented!" :=
  ⟨rfl, rfl⟩

/-- C10: `BTBEntry::insert` goes through `setValid`, whose assertion demands
the entry be invalid: inserting into a currently valid entry fails the
assertion, inserting into an invalid entry succeeds, and in particular
inserting into any just-invalidated entry (the state in which `findVictim`
hands out victims) always succeeds. -/
theorem btb_insert_only_when_invalid (ext : Nat → Nat) (key : BTBKey)
    (e1 : BTBEntry) (hv1 : e1.valid = true) (e2 : BTBEntry)
    (hv2 : e2.valid = false) (e3 : BTBEntry) :
    BTBEntry.insert ext key e1 = none ∧
    (BTBEntry.insert ext key e2).isSome = true ∧
    (BTBEntry.insert ext key e3.invalidate).isSome = true := by
  refine ⟨?_, ?_, ?_⟩
  · rw [BTBEntry.insert, BTBEntry.setValid, if_pos hv1]
    rfl
  · rw [BTBEntry.insert, BTBEntry.setValid, if_neg (by rw [hv2]; simp)]
    rfl
  · rw [BTBEntry.insert, BTBEntry.setValid,
      if_neg (by rw [show e3.invalidate.valid = false from rfl]; simp)]
    rfl

/-- Witness for C10 at concrete entries. -/
theorem btb_insert_only_when_invalid_witness :
    BTBEntry.insert id ⟨3, 0⟩ ⟨true, ⟨0, 0⟩, 2, 1, 1⟩ = none ∧
    (BTBEntry.insert id ⟨3, 0⟩ ⟨false, ⟨0, 0⟩, 2, 1, 1⟩).isSome = true ∧
    (BTBEntry.insert id ⟨3, 0⟩
      (BTBEntry.invalidate ⟨true, ⟨0, 0⟩, 2, 1, 1⟩)).isSome = true :=
  btb_insert_only_when_invalid id ⟨3, 0⟩ _ rfl _ rfl _

/-- C2: provided the replacement policy selects one of the candidates (the
contract it must satisfy), `findVictim addr` returns a victim position lying
inside the set at `getIndex addr`, and in the resulting state that entry has
been invalidated before being handed back: its valid flag is false, its tag
is the cleared sentinel, and the policy's `invalidate` has been applied to
its metadata — so the returned entry is invalid even if the caller never
completes the insertion. -/
theorem findVictim_invalidates_candidate (p : BaseReplacementPolicy M)
    (c : CacheLibrary M P) (addr : Nat) (old : TaggedEntry M P)
    (hold : c.entryAt (c.getIndex addr)
        (p.getVictim (candMeta (getSet c.data (c.getIndex addr))))
      = some old) :
    (c.findVictim p addr).1.1 = c.getIndex addr ∧
    (c.findVictim p addr).1.2 < (getSet c.data (c.getIndex addr)).length ∧
    (c.findVictim p addr).2.entryAt (c.findVictim p addr).1.1
        (c.findVictim p addr).1.2
      = some (invalFun p old) ∧
    (c.findVictim p addr).2
      = c.invalidateAt p (c.findVictim p addr).1.1
          (c.findVictim p addr).1.2 := by
  refine ⟨rfl, ?_, ?_, rfl⟩
  · exact (List.get?_eq_some.mp hold).1
  · show (c.modifyEntry (c.getIndex addr)
        (p.getVictim (candMeta (getSet c.data (c.getIndex addr))))
        (invalFun p)).entryAt (c.getIndex addr)
        (p.getVictim (candMeta (getSet c.data (c.getIndex addr))))
      = some (invalFun p old)
    rw [entryAt_modifyEntry_self, hold]
    rfl

/-- Witness for C2 on the fresh fixture cache. -/
theorem findVictim_invalidates_candidate_witness :
    sampleCache.entryAt (sampleCache.getIndex 0)
        (lruLike.getVictim (candMeta (getSet sampleCache.data
          (sampleCache.getIndex 0))))
      = some ⟨MaxAddr, false, 0, 0⟩ ∧
    (sampleCache.findVictim lruLike 0).1.1 = sampleCache.getIndex 0 ∧
    (sampleCache.findVictim lruLike 0).1.2
      < (getSet sampleCache.data (sampleCache.getIndex 0)).length ∧
    (sampleCache.findVictim lruLike 0).2.entryAt
        (sampleCache.findVictim lruLike 0).1.1
        (sampleCache.findVictim lruLike 0).1.2
      = some (invalFun lruLike ⟨MaxAddr, false, 0, 0⟩) ∧
    (sampleCache.findVictim lruLike 0).2
      = sampleCache.invalidateAt lruLike
          (sampleCache.findVictim lruLike 0).1.1
          (sampleCache.findVictim lruLike 0).1.2 :=
  ⟨by decide,
    findVictim_invalidates_candidate lruLike sampleCache 0
      ⟨MaxAddr, false, 0, 0⟩ (by decide)⟩

/-- C7: a plain lookup (`findEntry` with `updateRepl = false`) returns the
state completely unchanged, on hit and on miss alike; the touch-variant
lookup (`updateRepl = true`) leaves the state unchanged on a miss, and on a
hit changes exactly the matched entry, and only its replacement metadata,
through the policy's `touch`. -/
theorem findEntry_frame (p : BaseReplacementPolicy M) (c : CacheLibrary M P)
    (a : Nat) :
    ((c.findEntry p a false).2 = c) ∧
    (c.findEntryIdx a = none → (c.findEntry p a true).2 = c) ∧
    (∀ s w e, c.findEntryIdx a = some (s, w) → c.entryAt s w = some e →
      (c.findEntry p a true).2 = c.modifyEntry s w (touchFun p) ∧
      (c.findEntry p a true).2.entryAt s w
        = some { e with replacementData := p.touch e.replacementData } ∧
      ∀ s2 w2, ¬(s2 = s ∧ w2 = w) →
        (c.findEntry p a true).2.entryAt s2 w2 = c.entryAt s2 w2) := by
  refine ⟨?_, ?_, ?_⟩
  · rw [CacheLibrary.findEntry]
    rcases hidx : c.findEntryIdx a with _ | ⟨s, w⟩
    · rfl
    · rfl
  · intro h
    rw [CacheLibrary.findEntry, h]
  · intro s w e hidx hentry
    rw [CacheLibrary.findEntry, hidx]
    refine ⟨rfl, ?_, ?_⟩
    · show (c.modifyEntry s w (touchFun p)).entryAt s w = _
      rw [entryAt_modifyEntry_self, hentry]
      rfl
    · intro s2 w2 hne
      show (c.modifyEntry s w (touchFun p)).entryAt s2 w2 = _
      exact entryAt_modifyEntry_other c (touchFun p) hne

/-- Witness for C7 on a fixture state holding a hit for key 0 at set 0,
way 0. -/
theorem findEntry_frame_witness :
    ((sampleCache1.findEntry lruLike 0 false).2 = sampleCache1) ∧
    ((sampleCache1.findEntry lruLike 0 true).2.entryAt 0 0
      = some ⟨0, true, 3, 10⟩) ∧
    ((sampleCache1.findEntry lruLike 0 true).2.entryAt 0 1
      = sampleCache1.entryAt 0 1) :=
  ⟨(findEntry_frame lruLike sampleCache1 0).1,
    ((findEntry_frame lruLike sampleCache1 0).2.2 0 0 ⟨0, true, 2, 10⟩
      (by decide) (by decide)).2.1,
    ((findEntry_frame lruLike sampleCache1 0).2.2 0 0 ⟨0, true, 2, 10⟩
      (by decide) (by decide)).2.2 0 1 (by simp)⟩

/-- C8: `clear` is idempotent whenever the policy's `invalidate` is (the
contract makes it reset metadata to the fixed minimum-priority state), it
leaves every entry of every set invalid, and every subsequent lookup misses
for every key and returns the cleared state unchanged; `clear` is a total
function with no failure mode. -/
theorem clear_clears_and_idempotent (p : BaseReplacementPolicy M)
    (c : CacheLibrary M P)
    (hp : ∀ m, p.invalidate (p.invalidate m) = p.invalidate m) (a : Nat) :
    (c.clear p).clear p = c.clear p ∧
    ((c.clear p).data.all (fun ws => ws.all (fun e => !e.valid)) = true) ∧
    (c.clear p).findEntryIdx a = none ∧
    (c.clear p).findEntry p a false = (none, c.clear p) := by
  have hidx : (c.clear p).findEntryIdx a = none := by
    rw [CacheLibrary.findEntryIdx, Option.map_eq_none', findWay_none_iff]
    apply noValidTag_of_all_invalid
    show (getSet (c.data.map (fun ws => ws.map (invalFun p))) _).all _ = true
    rw [getSet_map rfl]
    exact all_invalid_map_invalFun p _
  refine ⟨?_, ?_, hidx, ?_⟩
  · have hdata : ((c.data.map (fun ws => ws.map (invalFun p))).map
        (fun ws => ws.map (invalFun p)))
        = c.data.map (fun ws => ws.map (invalFun p)) := by
      rw [List.map_map]
      refine map_fuse (fun ws => ?_) c.data
      show (ws.map (invalFun p)).map (invalFun p) = ws.map (invalFun p)
      rw [List.map_map]
      exact map_fuse (invalFun_idem p hp) ws
    show CacheLibrary.mk c.numEntries c.associativity c.entrySize c.numSets
        c.setShift c.setMask c.tagShift c.tagMask
        ((c.data.map (fun ws => ws.map (invalFun p))).map
          (fun ws => ws.map (invalFun p)))
      = CacheLibrary.mk c.numEntries c.associativity c.entrySize c.numSets
        c.setShift c.setMask c.tagShift c.tagMask
        (c.data.map (fun ws => ws.map (invalFun p)))
    rw [hdata]
  · show (c.data.map (fun ws => ws.map (invalFun p))).all _ = true
    rw [List.all_map]
    exact List.all_eq_true.mpr (fun ws _ => all_invalid_map_invalFun p ws)
  · rw [CacheLibrary.findEntry, hidx]

/-- Witness for C8 on a fixture state holding one valid entry. -/
theorem clear_clears_and_idempotent_witness :
    (sampleCache1.clear lruLike).clear lruLike = sampleCache1.clear lruLike ∧
    ((sampleCache1.clear lruLike).data.all
      (fun ws => ws.all (fun e => !e.valid)) = true) ∧
    (sampleCache1.clear lruLike).findEntryIdx 0 = none ∧
    (sampleCache1.clear lruLike).findEntry lruLike 0 false
      = (none, sampleCache1.clear lruLike) :=
  clear_clears_and_idempotent lruLike sampleCache1 (fun m => rfl) 0

/-- C4 (counterexample): the round-trip claim as stated is false when the
key already hits before the insertion.  On a cache already holding key 0
with payload 10, the findVictim/insertEntry pair for key 0 fills the other,
invalid way of the set with payload 20; the immediately following lookup
scans the set in order and returns the older duplicate, whose payload is 10,
not the payload 20 just written into the victim. -/
theorem roundtrip_payload_mismatch :
    (Option.map (fun e => e.payload)
      ((sampleCache1.runOp lruLike (CacheOp.insert 0 20)).findEntry lruLike 0
        false).1) = some 10 ∧
    (Option.map (fun e => e.payload)
      ((sampleCache1.runOp lruLike (CacheOp.insert 0 20)).findEntry lruLike 0
        false).1) ≠ some 20 := by
  exact ⟨by decide, by decide⟩

/-- C4 (amended): provided the policy picks one of the candidates, a
findVictim/insertEntry pair for key `a` followed by a payload write makes an
immediately following lookup hit with an entry whose tag is `getTag a`; and
provided additionally that the key missed beforehand, the entry the lookup
returns is exactly the filled victim, carrying the written payload. -/
theorem roundtrip_insert_lookup (p : BaseReplacementPolicy M)
    (c : CacheLibrary M P) (a : Nat) (pl : P) (old : TaggedEntry M P)
    (hold : (getSet c.data (c.getIndex a)).get?
        (p.getVictim (candMeta (getSet c.data (c.getIndex a)))) = some old) :
    (∃ e, ((c.runOp p (CacheOp.insert a pl)).findEntry p a false).1 = some e
       ∧ e.valid = true ∧ e.tag = c.getTag a) ∧
    (c.findEntryIdx a = none →
      ((c.runOp p (CacheOp.insert a pl)).findEntry p a false).1
        = some (payloadFun pl (insFun p (c.getTag a) (invalFun p old)))) := by
  have hW : (c.runOp p (CacheOp.insert a pl))
      = ((c.modifyEntry (c.getIndex a)
            (p.getVictim (candMeta (getSet c.data (c.getIndex a))))
            (invalFun p)).modifyEntry (c.getIndex a)
            (p.getVictim (candMeta (getSet c.data (c.getIndex a))))
            (insFun p (c.getTag a))).modifyEntry (c.getIndex a)
            (p.getVictim (candMeta (getSet c.data (c.getIndex a))))
            (payloadFun pl) := rfl
  have hset2 : getSet (c.runOp p (CacheOp.insert a pl)).data (c.getIndex a)
      = modifyWay (payloadFun pl)
          (modifyWay (insFun p (c.getTag a))
            (modifyWay (invalFun p) (getSet c.data (c.getIndex a))
              (p.getVictim (candMeta (getSet c.data (c.getIndex a)))))
            (p.getVictim (candMeta (getSet c.data (c.getIndex a)))))
          (p.getVictim (candMeta (getSet c.data (c.getIndex a)))) := by
    rw [hW, getSet_modifyEntry_self, getSet_modifyEntry_self,
      getSet_modifyEntry_self]
  have hgetw : (getSet (c.runOp p (CacheOp.insert a pl)).data
        (c.getIndex a)).get?
        (p.getVictim (candMeta (getSet c.data (c.getIndex a))))
      = some (payloadFun pl (insFun p (c.getTag a) (invalFun p old))) := by
    rw [hset2, modifyWay_get_self, modifyWay_get_self, modifyWay_get_self,
      hold]
    rfl
  have hmatch : TaggedEntry.matchTag (c.getTag a)
      (payloadFun pl (insFun p (c.getTag a) (invalFun p old))) = true := by
    simp [TaggedEntry.matchTag, payloadFun, insFun]
  constructor
  · have hne : CacheLibrary.findWay (c.getTag a)
        (getSet (c.runOp p (CacheOp.insert a pl)).data (c.getIndex a))
        ≠ none := by
      intro hnone
      have hnv := (findWay_none_iff _ _).mp hnone
      rw [noValidTag_false_of_match hgetw rfl
        (show (payloadFun pl (insFun p (c.getTag a)
          (invalFun p old))).tag = c.getTag a from rfl)] at hnv
      exact Bool.false_ne_true hnv
    rcases hfw : CacheLibrary.findWay (c.getTag a)
        (getSet (c.runOp p (CacheOp.insert a pl)).data (c.getIndex a))
      with _ | j
    · exact absurd hfw hne
    · obtain ⟨e, he, hme⟩ := findWay_some_spec hfw
      rw [TaggedEntry.matchTag, Bool.and_eq_true] at hme
      exact ⟨e, findEntry_fst_of_findWay hfw he, hme.1, by simpa using hme.2⟩
  · intro hmiss
    have hnv := findEntryIdx_none_noValidTag hmiss
    have hprev : ∀ j,
        j < p.getVictim (candMeta (getSet c.data (c.getIndex a))) →
        ∀ x, (getSet (c.runOp p (CacheOp.insert a pl)).data
          (c.getIndex a)).get? j = some x →
        TaggedEntry.matchTag (c.getTag a) x = false := by
      intro j hj x hx
      rw [hset2, modifyWay_get_other _ _ (Nat.ne_of_lt hj),
        modifyWay_get_other _ _ (Nat.ne_of_lt hj),
        modifyWay_get_other _ _ (Nat.ne_of_lt hj)] at hx
      exact matchTag_false_of_noValidTag hnv j x hx
    have hfw : CacheLibrary.findWay (c.getTag a)
        (getSet (c.runOp p (CacheOp.insert a pl)).data (c.getIndex a))
        = some (p.getVictim (candMeta (getSet c.data (c.getIndex a)))) :=
      findWay_eq_of hgetw hmatch hprev
    exact findEntry_fst_of_findWay hfw hgetw

/-- Witness for the amended C4 theorem: a fresh cache, insert payload 10 at
key 0, then look key 0 up again. -/
theorem roundtrip_insert_lookup_witness :
    ((sampleCache.runOp lruLike (CacheOp.insert 0 10)).findEntry lruLike 0
      false).1 = some (payloadFun 10 (insFun lruLike (sampleCache.getTag 0)
        (invalFun lruLike ⟨MaxAddr, false, 0, 0⟩))) :=
  (roundtrip_insert_lookup lruLike sampleCache 0 10 ⟨MaxAddr, false, 0, 0⟩
    (by decide)).2 (by decide)

end Gem5
